import Mathlib

/-!
Verification of the pom-consistency checker
(`.github/scripts/check-pom-consistency.py`).

The script walks a parsed `pom.xml` tree, classifies `<plugin>` /
`<dependency>` elements as managed or stray (Rules A and B), extracts the
`maven-plugins` group pattern list from `dependabot.yml` by indentation
scanning, and cross-checks pattern coverage of managed plugin groupIds
(Rules C and D).

Conventions used by this shallow embedding:

* XML elements become the inductive `Element` (tag, optional text, child
  list).  All tags are the local names; the fixed POM namespace prefix
  `{http://maven.apache.org/POM/4.0.0}` that the script attaches to every
  tag is a constant decoration and is dropped.
* Python object identity (`id(...)`) is modelled by the unique path of an
  element from the root (the list of child indices), which identifies a
  tree node exactly as object identity does.
* Python string truthiness (`if gid.text:`) is `text ≠ none ∧ text ≠ some ""`.
* `str.strip()` / indentation counting are re-implemented over `List Char`
  with Python's ASCII whitespace set (unicode whitespace is out of scope of
  the configuration files involved).
* `fnmatch.fnmatch` is embedded as an executable glob matcher (`?`, `*`,
  character classes with ranges and `!` negation, the special leading-`]`
  and unmatched-`[` conventions of `fnmatch.translate`).  On POSIX
  `os.path.normcase` is the identity, so no case folding is applied.
  The degenerate reversed-range merging quirk of `fnmatch.translate`
  (e.g. `[b-a]`) is modelled as a range that matches nothing.
* `text.splitlines()` is embedded for the line separators that can occur
  in the files at hand (`\n`, `\r\n`, `\r`).
-/

/-! ### Python-style string primitives -/

/-- Python's ASCII whitespace set, as used by `str.strip`, `str.lstrip`
and the `\s` regex class on the ASCII configuration text involved. -/
def pyIsSpace (c : Char) : Bool :=
  c = ' ' || c = '\t' || c = '\n' || c = '\r' || c = '\x0b' || c = '\x0c'

/-- Strip leading and trailing whitespace from a character list
(`str.strip()`). -/
def stripChars (cs : List Char) : List Char :=
  ((cs.dropWhile pyIsSpace).reverse.dropWhile pyIsSpace).reverse

/-- Python `line.strip()`. -/
def pyStrip (s : String) : String := ⟨stripChars s.data⟩

/-- Python `len(line) - len(line.lstrip())`: the number of leading
whitespace characters of a raw line. -/
def indentOf (s : String) : Nat :=
  s.data.length - (s.data.dropWhile pyIsSpace).length

/-- Python `s.startswith("#")`. -/
def startsWithHash (s : String) : Bool :=
  match s.data with
  | c :: _ => c = '#'
  | [] => false

/-- Python `text.splitlines()` accumulator: builds the current line in
reverse in `acc`, breaking at `\n`, `\r\n` or `\r`; no trailing empty
line is produced for a trailing line break. -/
def splitlinesAux : List Char → List Char → List String
  | [], acc => if acc = [] then [] else [⟨acc.reverse⟩]
  | '\r' :: '\n' :: rest, acc => ⟨acc.reverse⟩ :: splitlinesAux rest []
  | '\r' :: rest, acc => ⟨acc.reverse⟩ :: splitlinesAux rest []
  | '\n' :: rest, acc => ⟨acc.reverse⟩ :: splitlinesAux rest []
  | c :: rest, acc => splitlinesAux rest (c :: acc)

/-- Python `text.splitlines()`. -/
def splitlines (text : String) : List String := splitlinesAux text.data []

/-! ### The manifest tree (`xml.etree` elements) -/

/-- A parsed XML element: local tag name, optional text content, ordered
children.  Mirrors the `xml.etree.ElementTree.Element` view used by the
script (`.find`, `.iter`, `.text`). -/
inductive Element where
  | mk (tag : String) (text : Option String) (children : List Element)

/-- Tag of an element. -/
def Element.tag : Element → String
  | .mk t _ _ => t

/-- Text content of an element (`elem.text`; `none` models Python `None`). -/
def Element.text : Element → Option String
  | .mk _ tx _ => tx

/-- Children of an element. -/
def Element.children : Element → List Element
  | .mk _ _ cs => cs

/-- Python `element.find(tag)`: first direct child with the given tag. -/
def Element.findChild (e : Element) (tg : String) : Option Element :=
  e.children.find? (fun c => c.tag == tg)

/-- Follow a path of child indices from an element (the identity model:
the node `id()` in Python corresponds to the unique access path here). -/
def getPath : List Nat → Element → Option Element
  | [], e => some e
  | i :: rest, e =>
    match e.children[i]? with
    | some c => getPath rest c
    | none => none

mutual
/-- Python `element.iter(tag)`: every descendant (the element itself
included) with the given tag, in document order, together with its path
relative to `e`. -/
def iterNodes (tg : String) : Element → List (List Nat × Element)
  | .mk t tx cs =>
    (if t == tg then [([], Element.mk t tx cs)] else []) ++ iterNodesAux tg 0 cs
/-- Helper for `iterNodes`: scan a child list, the first child having
index `i`. -/
def iterNodesAux (tg : String) (i : Nat) : List Element → List (List Nat × Element)
  | [] => []
  | c :: cs =>
    ((iterNodes tg c).map fun pe => (i :: pe.1, pe.2)) ++ iterNodesAux tg (i + 1) cs
end

/-- Identity set of elements with tag `elemTg` lying inside (strictly or
not) some element with tag `secTg`: the common shape of
`pm_plugin_ids`, `dm_dependency_ids` and `plugin_dependency_ids`. -/
def sectionIds (secTg elemTg : String) (root : Element) : List (List Nat) :=
  (iterNodes secTg root).flatMap fun pe =>
    (iterNodes elemTg pe.2).map fun qe => pe.1 ++ qe.1

/-- `pm_plugin_ids(root)`: id set of `<plugin>` elements inside
`<pluginManagement>`. -/
def pm_plugin_ids (root : Element) : List (List Nat) :=
  sectionIds "pluginManagement" "plugin" root

/-- `dm_dependency_ids(root)`: id set of `<dependency>` elements inside
`<dependencyManagement>`. -/
def dm_dependency_ids (root : Element) : List (List Nat) :=
  sectionIds "dependencyManagement" "dependency" root

/-- `plugin_dependency_ids(root)`: id set of `<dependency>` elements
inside any `<plugin>` (plugin-level dependencies). -/
def plugin_dependency_ids (root : Element) : List (List Nat) :=
  sectionIds "plugin" "dependency" root

/-- The element-at-path predicate "this path lies inside (at or below) an
element carrying the section tag": the specification-level reading of
membership in one of the identity sets. -/
def insideSection (root : Element) (secTg : String) (path : List Nat) : Prop :=
  ∃ p q, path = p ++ q ∧ ∃ s, getPath p root = some s ∧ s.tag = secTg

/-- One branch of `artifact_coords`:
`x.text.strip() if x is not None and x.text else "unknown"`. -/
def coordOf (e : Element) (nm : String) : String :=
  match e.findChild nm with
  | some g =>
    match g.text with
    | some t => if t = "" then "unknown" else pyStrip t
    | none => "unknown"
  | none => "unknown"

/-- `artifact_coords(element)`: the `(groupId, artifactId)` pair with the
`"unknown"` fallback (the script aliases this as `plugin_coords`). -/
def artifact_coords (e : Element) : String × String :=
  (coordOf e "groupId", coordOf e "artifactId")

/-- The inline `<version>` test used by Rules A and B:
`version is not None and version.text` — gives the (raw) text when the
element has a `<version>` child with truthy text. -/
def inlineVersionText (e : Element) : Option String :=
  match e.findChild "version" with
  | some v =>
    match v.text with
    | some t => if t = "" then none else some t
    | none => none
  | none => none

/-! ### The glob matcher (`fnmatch.fnmatch`) -/

/-- The double-quote character (written by code point to keep string
delimiters unambiguous). -/
def dquoteChar : Char := Char.ofNat 34

/-- The single-quote character. -/
def squoteChar : Char := Char.ofNat 39

/-- Is this character one of the two quote characters of the item regex? -/
def isQuote (c : Char) : Bool := c = dquoteChar || c = squoteChar

/-- Scan a character-class body for its closing `]`; returns the content
before it and the remainder after it, or `none` when unclosed. -/
def findClose : List Char → Option (List Char × List Char)
  | [] => none
  | c :: rest =>
    if c = ']' then some ([], rest)
    else (findClose rest).map fun p => (c :: p.1, p.2)

/-- Parse the body of a `[...]` character class per `fnmatch.translate`:
an optional leading `!` negates; a `]` directly after `[` or `[!` is
literal content; `none` when no closing `]` exists (then `[` is treated
as a literal character by the matcher). -/
def splitClass (cs : List Char) : Option (Bool × List Char × List Char) :=
  match cs with
  | '!' :: ']' :: rest => (findClose rest).map fun p => (true, ']' :: p.1, p.2)
  | '!' :: rest => (findClose rest).map fun p => (true, p.1, p.2)
  | ']' :: rest => (findClose rest).map fun p => (false, ']' :: p.1, p.2)
  | _ => (findClose cs).map fun p => (false, p.1, p.2)

/-- Does a character match the (already negation-stripped) content of a
character class?  `a-b` is a code-point range (hyphens first or last are
literal); a reversed range matches nothing. -/
def classMatches : List Char → Char → Bool
  | [], _ => false
  | a :: '-' :: b :: rest, c => (a ≤ c && c ≤ b) || classMatches rest c
  | a :: rest, c => (c = a) || classMatches rest c

/-- Fuel-indexed glob matching of pattern characters against string
characters, with the semantics of the regex produced by
`fnmatch.translate` (anchored at both ends).  Each step consumes at
least one unit of pattern or string, so fuel
`pattern-length + string-length + 1` never runs out. -/
def fnMatchAux : Nat → List Char → List Char → Bool
  | 0, _, _ => false
  | fuel + 1, pat, s =>
    match pat with
    | [] => s.isEmpty
    | c :: ps =>
      if c = '*' then
        fnMatchAux fuel ps s ||
          (match s with
           | [] => false
           | _ :: ss => fnMatchAux fuel pat ss)
      else if c = '?' then
        (match s with
         | [] => false
         | _ :: ss => fnMatchAux fuel ps ss)
      else if c = '[' then
        match splitClass ps with
        | some (neg, content, rest) =>
          (match s with
           | [] => false
           | ch :: ss => (neg != classMatches content ch) && fnMatchAux fuel rest ss)
        | none =>
          (match s with
           | ch :: ss => (ch = '[') && fnMatchAux fuel ps ss
           | [] => false)
      else
        (match s with
         | ch :: ss => (ch = c) && fnMatchAux fuel ps ss
         | [] => false)

/-- `fnmatch.fnmatch(name, pat)` (POSIX: `normcase` is the identity). -/
def fnmatchB (nm pat : String) : Bool :=
  fnMatchAux (pat.data.length + nm.data.length + 1) pat.data nm.data

/-- `covers_group_id(pattern, group_id)`: the pattern covers a groupId
when it glob-matches `f"{group_id}:DUMMY"`. -/
def covers_group_id (pattern group_id : String) : Bool :=
  fnmatchB (group_id ++ ":DUMMY") pattern

/-! ### The dependabot block extractor -/

/-- Word characters for the `\b` boundary after `maven` (ASCII `\w`). -/
def isWordChar (c : Char) : Bool := c.isAlphanum || c = '_'

/-- Does the regex `package-ecosystem:\s*maven\b` match starting exactly
at this character position? -/
def mavenMarkerAt (cs : List Char) : Bool :=
  "package-ecosystem:".data.isPrefixOf cs &&
    (let rest := (cs.drop "package-ecosystem:".data.length).dropWhile pyIsSpace
     "maven".data.isPrefixOf rest &&
       (match rest.drop "maven".data.length with
        | [] => true
        | c :: _ => !isWordChar c))

/-- `re.search(r"package-ecosystem:\s*maven\b", line)` on the raw
(unstripped) line: the marker may start at any position. -/
def regexSearchMaven (line : String) : Bool :=
  line.data.tails.any mavenMarkerAt

/-- The raw-line test the script uses to skip a line: its stripped form
is empty or starts with `#` (`if not s or s.startswith("#")`). -/
def ignorableLine (line : String) : Bool :=
  pyStrip line = "" || startsWithHash (pyStrip line)

/-- `re.match(key + r"\s*$", s)` for a literal `key` with no regex
metacharacters, applied to an already-stripped `s`. -/
def keyMatch (key : String) (s : String) : Bool :=
  key.data.isPrefixOf s.data && (s.data.drop key.data.length).all pyIsSpace

/-- The script's inner `find_line(start, pattern, stop_indent)`,
re-expressed on the list of lines after the start index: skip blank and
comment lines; stop (returning `none`) when a remaining line's
indentation drops to `stop_indent` or below; otherwise return the first
line whose stripped form matches, together with the lines after it. -/
def find_line (m : String → Bool) (stop_indent : Option Nat) : List String → Option (String × List String)
  | [] => none
  | line :: rest =>
    if ignorableLine line then find_line m stop_indent rest
    else if stop_indent.any (fun si => indentOf line ≤ si) then none
    else if m (pyStrip line) then some (line, rest)
    else find_line m stop_indent rest

/-- The top-level scan for the maven ecosystem block:
`next(i for i, l in enumerate(lines) if re.search(..., l))`, returning
the first matching raw line and the lines after it.  Note that this scan
does not strip lines and does not skip comment lines. -/
def findMaven : List String → Option (String × List String)
  | [] => none
  | line :: rest =>
    if regexSearchMaven line then some (line, rest) else findMaven rest

/-- One line of the final pattern loop:
`re.match(r"""-\s*["']?([^"'\s]+)["']?""", s)` applied to the stripped
line; yields the captured token (the maximal run of non-quote
non-whitespace characters after the dash, optional spaces and an
optional opening quote). -/
def parseItem (s : String) : Option String :=
  match s.data with
  | [] => none
  | c :: cs =>
    if c = '-' then
      let afterSpaces := cs.dropWhile pyIsSpace
      let body :=
        match afterSpaces with
        | q :: t => if isQuote q then t else afterSpaces
        | [] => afterSpaces
      let tok := body.takeWhile fun ch => !(isQuote ch || pyIsSpace ch)
      if tok = [] then none else some ⟨tok⟩
    else none

/-- The final collection loop over `lines[patterns_line + 1 :]`: skip
blank/comment lines, stop at the first line whose indentation is at or
below the `patterns:` marker, and collect one item per matching line
(non-matching deeper lines are skipped, not terminating). -/
def collectItems (patIndent : Nat) : List String → List String
  | [] => []
  | line :: rest =>
    if ignorableLine line then collectItems patIndent rest
    else if indentOf line ≤ patIndent then []
    else
      match parseItem (pyStrip line) with
      | some item => item :: collectItems patIndent rest
      | none => collectItems patIndent rest

/-- Stage four of the extraction: the `patterns:` marker has line `pl`;
find it below `maven-plugins:` and collect its items. -/
def extract_stage_patterns (pl : String) (r3 : List String) : List String :=
  match find_line (keyMatch "patterns:") (some (indentOf pl)) r3 with
  | none => []
  | some (ptl, r4) => collectItems (indentOf ptl) r4

/-- Stage three of the extraction: find `maven-plugins:` below
`groups:` (whose line is `gl`). -/
def extract_stage_mp (gl : String) (r2 : List String) : List String :=
  match find_line (keyMatch "maven-plugins:") (some (indentOf gl)) r2 with
  | none => []
  | some (pl, r3) => extract_stage_patterns pl r3

/-- Stage two of the extraction: find `groups:` below the maven
ecosystem line `ml`. -/
def extract_stage_groups (ml : String) (r1 : List String) : List String :=
  match find_line (keyMatch "groups:") (some (indentOf ml)) r1 with
  | none => []
  | some (gl, r2) => extract_stage_mp gl r2

/-- `extract_maven_plugins_patterns`, over an already-split line list:
locate the maven ecosystem line, then `groups:`, `maven-plugins:` and
`patterns:` in turn (each bounded by its parent's indentation), then
collect the items under `patterns:`.  Any failure yields `[]`. -/
def extract_lines (lines : List String) : List String :=
  match findMaven lines with
  | none => []
  | some (ml, r1) => extract_stage_groups ml r1

/-- `extract_maven_plugins_patterns(text)`. -/
def extract_maven_plugins_patterns (text : String) : List String :=
  extract_lines (splitlines text)

/-! ### The consistency checker (`main`, as a pure function of its inputs) -/

/-- String order used to model Python `sorted` on strings (both compare
lexicographically by code point). -/
def sle (a b : String) : Bool := decide (a ≤ b)

/-- Insert into a sorted list (helper of `sortStr`). -/
def insertSorted (a : String) : List String → List String
  | [] => [a]
  | b :: rest => if sle a b then a :: b :: rest else b :: insertSorted a rest

/-- Insertion sort.  Strings are totally ordered and the input to the
sort below is duplicate-free, so this produces exactly the sequence
Python's `sorted` does. -/
def sortStr : List String → List String
  | [] => []
  | a :: rest => insertSorted a (sortStr rest)

/-- Rule A message:
`f"pom.xml: {g}:{a} has <version>{v}</version> defined outside <pluginManagement>"`. -/
def ruleAMsg (g a v : String) : String :=
  "pom.xml: " ++ (g ++ (":" ++ (a ++ (" has <version>" ++ (v ++ "</version> defined outside <pluginManagement>")))))

/-- Rule B message (outside `<dependencyManagement>`). -/
def ruleBMsg (g a v : String) : String :=
  "pom.xml: " ++ (g ++ (":" ++ (a ++ (" has <version>" ++ (v ++ "</version> defined outside <dependencyManagement>")))))

/-- Rule C message (uncovered managed groupId). -/
def ruleCMsg (gid : String) : String :=
  "dependabot.yml: plugin groupId '" ++ (gid ++ "' from <pluginManagement> is not covered by any pattern in the 'maven-plugins' group")

/-- Rule D message (stale pattern). -/
def ruleDMsg (pat : String) : String :=
  "dependabot.yml: pattern '" ++ (pat ++ "' in the 'maven-plugins' group does not match any plugin groupId in <pluginManagement>")

/-- The missing-configuration-block message. -/
def missingMsg : String :=
  "dependabot.yml: could not find patterns for the 'maven-plugins' group"

/-- Check 1 body, per scanned plugin: skip when the id is managed,
otherwise report a truthy inline `<version>`. -/
def ruleAViolation (pmIds : List (List Nat)) (pe : List Nat × Element) : Option String :=
  if pe.1 ∈ pmIds then none
  else
    match inlineVersionText pe.2 with
    | some t => some (ruleAMsg (artifact_coords pe.2).1 (artifact_coords pe.2).2 (pyStrip t))
    | none => none

/-- Check 1: `for plugin in root.iter(plugin): ...`. -/
def checkRuleA (root : Element) : List String :=
  (iterNodes "plugin" root).filterMap (ruleAViolation (pm_plugin_ids root))

/-- Check 2 body, per scanned dependency: skip when the id is in either
exemption set, otherwise report a truthy inline `<version>`. -/
def ruleBViolation (dmIds pdIds : List (List Nat)) (pe : List Nat × Element) : Option String :=
  if pe.1 ∈ dmIds ∨ pe.1 ∈ pdIds then none
  else
    match inlineVersionText pe.2 with
    | some t => some (ruleBMsg (artifact_coords pe.2).1 (artifact_coords pe.2).2 (pyStrip t))
    | none => none

/-- Check 2: `for dep in root.iter(dependency): ...`. -/
def checkRuleB (root : Element) : List String :=
  (iterNodes "dependency" root).filterMap
    (ruleBViolation (dm_dependency_ids root) (plugin_dependency_ids root))

/-- The contribution of one scanned plugin to the `pm_group_ids` set:
`if id(plugin) not in pm_ids: continue; if gid is not None and gid.text:
add(gid.text.strip())`. -/
def pmGroupIdOf (pmIds : List (List Nat)) (pe : List Nat × Element) : Option String :=
  if pe.1 ∈ pmIds then
    match pe.2.findChild "groupId" with
    | some g =>
      match g.text with
      | some t => if t = "" then none else some (pyStrip t)
      | none => none
    | none => none
  else none

/-- The collected `pm_group_ids` values, in scan order, duplicates kept. -/
def pm_group_ids_list (root : Element) : List String :=
  (iterNodes "plugin" root).filterMap (pmGroupIdOf (pm_plugin_ids root))

/-- The `pm_group_ids` Python set: the distinct collected groupIds. -/
def managedGroupIds (root : Element) : List String :=
  (pm_group_ids_list root).dedup

/-- Check "every `<pluginManagement>` groupId is covered":
`for gid in sorted(pm_group_ids): ...`. -/
def checkRuleC (gids patterns : List String) : List String :=
  (sortStr gids).filterMap fun gid =>
    if patterns.any fun p => covers_group_id p gid then none
    else some (ruleCMsg gid)

/-- Check "no stale patterns": `for pattern in patterns: ...`. -/
def checkRuleD (gids patterns : List String) : List String :=
  patterns.filterMap fun pat =>
    if gids.any fun gid => covers_group_id pat gid then none
    else some (ruleDMsg pat)

/-- The whole check, as the pure function of the parsed manifest root and
the raw dependabot text that `main` computes before printing: the
ordered list of error messages. -/
def check (root : Element) (text : String) : List String :=
  let patterns := extract_maven_plugins_patterns text
  checkRuleA root ++
    (checkRuleB root ++
      (if patterns = [] then [missingMsg]
       else checkRuleC (managedGroupIds root) patterns ++
         checkRuleD (managedGroupIds root) patterns))

/-! ### Concrete sample inputs (used by witnesses and counterexamples) -/

/-- A leaf element with text. -/
def leafElem (tg t : String) : Element := .mk tg (some t) []

/-- A managed sample plugin (groupId `org.foo`, no version). -/
def sampleManagedPlugin : Element :=
  .mk "plugin" none [leafElem "groupId" "org.foo", leafElem "artifactId" "managed-a"]

/-- A stray sample plugin with an inline version. -/
def sampleStrayPlugin : Element :=
  .mk "plugin" none
    [leafElem "groupId" "com.example", leafElem "artifactId" "tool", leafElem "version" "1.2.3"]

/-- A sample root: one managed plugin inside `<pluginManagement>`, one
stray plugin with an inline version outside it. -/
def sampleRoot : Element :=
  .mk "project" none
    [.mk "pluginManagement" none [.mk "plugins" none [sampleManagedPlugin]],
     sampleStrayPlugin]

/-- A dependency with an inline version, sitting inside a plugin. -/
def samplePluginDep : Element :=
  .mk "dependency" none
    [leafElem "groupId" "com.example", leafElem "artifactId" "helper", leafElem "version" "2.0"]

/-- A sample root for Rule B: the versioned dependency lives inside a
plugin, hence is exempt. -/
def sampleRootB : Element :=
  .mk "project" none
    [.mk "build" none [.mk "plugin" none [.mk "dependencies" none [samplePluginDep]]]]

/-- A managed plugin that declares no groupId at all. -/
def sampleNoGidPlugin : Element :=
  .mk "plugin" none [leafElem "artifactId" "anonymous"]

/-- A sample root whose only managed plugin lacks a groupId. -/
def sampleRootNoGid : Element :=
  .mk "project" none [.mk "pluginManagement" none [sampleNoGidPlugin]]

/-- An element whose groupId text is whitespace-only. -/
def wsGidElem : Element :=
  .mk "plugin" none [.mk "groupId" (some "   ") []]

/-- An element with an ordinary groupId surrounded by whitespace. -/
def okGidElem : Element :=
  .mk "plugin" none [.mk "groupId" (some " org.x ") []]

/-- An empty sample root (no plugins, no dependencies). -/
def emptyRoot : Element := .mk "project" none []

/-- A well-formed dependabot text whose `maven-plugins` group holds the
single pattern `org.foo:*`. -/
def sampleDependabotText : String :=
  "updates:\n  - package-ecosystem: maven\n    groups:\n      maven-plugins:\n        patterns:\n          - org.foo:*"

/-- The same text with a comment line inserted at the very top that
happens to contain the ecosystem marker. -/
def sampleDependabotTextCommented : String :=
  "# package-ecosystem: maven\n" ++ sampleDependabotText

/-- A dependabot text whose marker chain is fully located but whose
`patterns:` block holds zero items. -/
def emptyPatternsText : String :=
  "updates:\n  - package-ecosystem: maven\n    groups:\n      maven-plugins:\n        patterns:\nnext: 1"

/-- The zero-item text with one item line added under `patterns:`,
witnessing that the marker chain is locatable. -/
def emptyPatternsTextWithItem : String :=
  "updates:\n  - package-ecosystem: maven\n    groups:\n      maven-plugins:\n        patterns:\n          - org.foo:*\nnext: 1"

/-- Line-list insertion relation: `ls2` is `ls1` with the single extra
line `x` inserted at some position, or the two lists are equal.  Used to
state that inserting a blank/comment line does not change extraction. -/
def InsOrEq (x : String) (ls1 ls2 : List String) : Prop :=
  ls2 = ls1 ∨ ∃ a b, ls2 = a ++ x :: b ∧ ls1 = a ++ b

/-- How the results of one marker search relate across an `InsOrEq`
insertion: both searches fail, or both find the same line with
remainders again related by the insertion. -/
def FindRel (x : String) : Option (String × List String) → Option (String × List String) → Prop
  | none, none => True
  | some (l, r), some (l2, r2) => l2 = l ∧ InsOrEq x r r2
  | _, _ => False

/-! ### Tree lemmas: paths, iteration, identity sets -/

theorem getPath_append (p q : List Nat) (e : Element) :
    getPath (p ++ q) e = (getPath p e).bind (getPath q) := by
  induction p generalizing e with
  | nil => simp [getPath]
  | cons i p ih =>
    simp only [List.cons_append, getPath]
    cases e.children[i]? with
    | none => simp
    | some c => simp [ih]

mutual
theorem iterNodes_mem (tg : String) (e : Element) (q : List Nat) (x : Element) :
    (q, x) ∈ iterNodes tg e ↔ getPath q e = some x ∧ x.tag = tg := by
  match e with
  | .mk t tx cs =>
    rw [iterNodes]
    cases q with
    | nil =>
      have haux := iterNodesAux_mem tg 0 cs [] x
      simp only [List.mem_append, haux]
      constructor
      · rintro (h | ⟨j, rest, h, _⟩)
        · by_cases ht : t == tg
          · simp [ht] at h
            rcases h with ⟨rfl, rfl⟩
            exact ⟨rfl, by simpa [Element.tag] using ht⟩
          · simp [ht] at h
        · exact absurd h (by simp)
      · rintro ⟨hget, htag⟩
        left
        simp only [getPath, Option.some.injEq] at hget
        subst hget
        simp [Element.tag] at htag
        simp [htag]
    | cons j rest =>
      have haux := iterNodesAux_mem tg 0 cs (j :: rest) x
      simp only [List.mem_append, haux]
      constructor
      · rintro (h | ⟨j2, rest2, hq, c, hc, hrec, htag⟩)
        · by_cases ht : t == tg <;> simp [ht] at h
        · refine ⟨?_, htag⟩
          simp only [Nat.zero_add] at hq
          cases hq
          simp [getPath, Element.children, hc, hrec]
      · rintro ⟨hget, htag⟩
        right
        simp only [getPath, Element.children] at hget
        cases hc : cs[j]? with
        | none => simp [hc] at hget
        | some c =>
          rw [hc] at hget
          exact ⟨j, rest, by simp, c, hc, hget, htag⟩

theorem iterNodesAux_mem (tg : String) (i : Nat) (cs : List Element) (q : List Nat) (x : Element) :
    (q, x) ∈ iterNodesAux tg i cs ↔
      ∃ j rest, q = (i + j) :: rest ∧
        ∃ c, cs[j]? = some c ∧ getPath rest c = some x ∧ x.tag = tg := by
  match cs with
  | [] => simp [iterNodesAux]
  | c :: cs =>
    rw [iterNodesAux]
    have hhead := iterNodes_mem tg c
    have htail := iterNodesAux_mem tg (i + 1) cs q x
    simp only [List.mem_append, List.mem_map, htail]
    constructor
    · rintro (⟨⟨p, y⟩, hmem, heq⟩ | ⟨j, rest, hq, c2, hc2, hrec, htag⟩)
      · obtain ⟨hget, htag⟩ := (hhead p y).1 hmem
        obtain ⟨h1, h2⟩ := Prod.mk.injEq .. ▸ heq
        subst h2
        exact ⟨0, p, by simpa using h1.symm, c, by simp, hget, htag⟩
      · refine ⟨j + 1, rest, ?_, c2, by simpa using hc2, hrec, htag⟩
        have harith : i + (j + 1) = i + 1 + j := by omega
        rw [harith, hq]
    · rintro ⟨j, rest, hq, c2, hc2, hrec, htag⟩
      cases j with
      | zero =>
        left
        simp only [List.getElem?_cons_zero, Option.some.injEq] at hc2
        subst hc2
        exact ⟨(rest, x), (hhead rest x).2 ⟨hrec, htag⟩, by simp [hq]⟩
      | succ j =>
        right
        refine ⟨j, rest, ?_, c2, by simpa using hc2, hrec, htag⟩
        have harith : i + 1 + j = i + (j + 1) := by omega
        rw [harith, hq]
end

theorem mem_iterNodesAux_head (tg : String) (i : Nat) (cs : List Element)
    (q : List Nat) (x : Element) (h : (q, x) ∈ iterNodesAux tg i cs) :
    ∃ j rest, q = (i + j) :: rest := by
  obtain ⟨j, rest, hq, -⟩ := (iterNodesAux_mem tg i cs q x).1 h
  exact ⟨j, rest, hq⟩

mutual
theorem iterNodes_fst_nodup (tg : String) (e : Element) :
    ((iterNodes tg e).map Prod.fst).Nodup := by
  match e with
  | .mk t tx cs =>
    rw [iterNodes]
    rw [List.map_append, List.nodup_append]
    refine ⟨?_, iterNodesAux_fst_nodup tg 0 cs, ?_⟩
    · by_cases ht : t == tg <;> simp [ht]
    · intro a ha hb
      by_cases ht : t == tg <;> simp [ht] at ha
      subst ha
      obtain ⟨⟨q, x⟩, hmem, hfst⟩ := List.mem_map.1 hb
      obtain ⟨j, rest, hq⟩ := mem_iterNodesAux_head tg 0 cs q x hmem
      simp only at hfst
      rw [hfst] at hq
      exact List.noConfusion hq

theorem iterNodesAux_fst_nodup (tg : String) (i : Nat) (cs : List Element) :
    ((iterNodesAux tg i cs).map Prod.fst).Nodup := by
  match cs with
  | [] => simp [iterNodesAux]
  | c :: cs =>
    rw [iterNodesAux]
    rw [List.map_append, List.nodup_append]
    refine ⟨?_, iterNodesAux_fst_nodup tg (i + 1) cs, ?_⟩
    · have : ((iterNodes tg c).map fun pe => (i :: pe.1, pe.2)).map Prod.fst
          = ((iterNodes tg c).map Prod.fst).map fun q => i :: q := by
        simp [List.map_map, Function.comp]
      rw [this]
      exact (iterNodes_fst_nodup tg c).map fun a b hab => by simpa using hab
    · intro a ha hb
      obtain ⟨⟨q, x⟩, hmem, hfst⟩ := List.mem_map.1 ha
      obtain ⟨⟨q2, x2⟩, hmem2, hfst2⟩ := List.mem_map.1 hb
      obtain ⟨pe, hpe, hpe2⟩ := List.mem_map.1 hmem
      obtain ⟨j, rest, hq2⟩ := mem_iterNodesAux_head tg (i + 1) cs q2 x2 hmem2
      simp only at hfst hfst2
      have hcons : i :: pe.1 = q := congrArg Prod.fst hpe2
      have h1 : a = i :: pe.1 := by rw [← hfst, ← hcons]
      have h2 : a = (i + 1 + j) :: rest := by rw [← hfst2, hq2]
      rw [h1] at h2
      have := List.head_eq_of_cons_eq h2
      omega
end

theorem count_eq_one_of_nodup_mem {α : Type} [BEq α] [LawfulBEq α] {l : List α} {a : α}
    (nd : l.Nodup) (h : a ∈ l) : l.count a = 1 := by
  induction l with
  | nil => cases h
  | cons b l ih =>
    rcases List.mem_cons.1 h with rfl | hmem
    · rw [List.count_cons_self, List.count_eq_zero.2 (List.nodup_cons.1 nd).1]
    · have hne : a ≠ b := fun hab => (List.nodup_cons.1 nd).1 (hab ▸ hmem)
      rw [List.count_cons_of_ne hne, ih (List.nodup_cons.1 nd).2 hmem]

theorem iterNodes_count_one (tg : String) (root : Element) (path : List Nat) (x : Element)
    (hget : getPath path root = some x) (htag : x.tag = tg) :
    ((iterNodes tg root).map Prod.fst).count path = 1 := by
  refine count_eq_one_of_nodup_mem (iterNodes_fst_nodup tg root) ?_
  exact List.mem_map.2 ⟨(path, x), (iterNodes_mem tg root path x).2 ⟨hget, htag⟩, rfl⟩

theorem mem_sectionIds_iff (secTg tg : String) (root : Element) (path : List Nat) (x : Element)
    (hget : getPath path root = some x) (htag : x.tag = tg) :
    path ∈ sectionIds secTg tg root ↔ insideSection root secTg path := by
  constructor
  · intro h
    obtain ⟨⟨p, s⟩, hsec, hmap⟩ := List.mem_flatMap.1 h
    obtain ⟨⟨q, y⟩, _, hq⟩ := List.mem_map.1 hmap
    obtain ⟨hgs, hts⟩ := (iterNodes_mem secTg root p s).1 hsec
    exact ⟨p, q, hq.symm, s, hgs, hts⟩
  · rintro ⟨p, q, rfl, s, hgs, hts⟩
    have hx : getPath q s = some x := by
      have := getPath_append p q root
      rw [hget, hgs] at this
      simpa using this.symm
    refine List.mem_flatMap.2 ⟨(p, s), (iterNodes_mem secTg root p s).2 ⟨hgs, hts⟩, ?_⟩
    exact List.mem_map.2 ⟨(q, x), (iterNodes_mem tg s q x).2 ⟨hx, htag⟩, rfl⟩

/-! ### Claims C1 and C2: Rules A and B -/

/-- C1 — Rule A raises-iff: a plugin element of the manifest tree is
scanned exactly once by Check 1, and it yields a Rule-A violation if and
only if it is not inside any `pluginManagement` section and carries a
truthy (non-empty) `version` sub-element; the emitted message names the
element's coordinates and the stripped stray version text.  Plugins
inside the management section never yield a Rule-A violation. -/
theorem c1_ruleA_raises_iff (root : Element) (path : List Nat) (p : Element)
    (hget : getPath path root = some p) (htag : p.tag = "plugin") :
    ((iterNodes "plugin" root).map Prod.fst).count path = 1 ∧
    (∀ msg, ruleAViolation (pm_plugin_ids root) (path, p) = some msg ↔
      (¬ insideSection root "pluginManagement" path ∧
       ∃ t, inlineVersionText p = some t ∧
         msg = ruleAMsg (artifact_coords p).1 (artifact_coords p).2 (pyStrip t))) := by
  have hmem_iff : path ∈ pm_plugin_ids root ↔ insideSection root "pluginManagement" path :=
    mem_sectionIds_iff "pluginManagement" "plugin" root path p hget htag
  refine ⟨iterNodes_count_one "plugin" root path p hget htag, fun msg => ?_⟩
  by_cases hin : path ∈ pm_plugin_ids root
  · simp only [ruleAViolation, hin, if_pos, hmem_iff.1 hin]
    simp
  · simp only [ruleAViolation, if_neg hin]
    cases hv : inlineVersionText p with
    | none => simp [fun h => hin (hmem_iff.2 h)]
    | some t =>
      simp only [Option.some.injEq]
      constructor
      · rintro rfl
        exact ⟨fun h => hin (hmem_iff.2 h), t, rfl, rfl⟩
      · rintro ⟨-, t2, ht2, rfl⟩
        cases ht2
        rfl

/-- Witness for C1 at a concrete manifest: the stray plugin of
`sampleRoot` sits at path `[1]`. -/
theorem c1_witness :
    getPath [1] sampleRoot = some sampleStrayPlugin ∧
    Element.tag sampleStrayPlugin = "plugin" ∧
    (((iterNodes "plugin" sampleRoot).map Prod.fst).count [1] = 1 ∧
     (∀ msg, ruleAViolation (pm_plugin_ids sampleRoot) ([1], sampleStrayPlugin) = some msg ↔
       (¬ insideSection sampleRoot "pluginManagement" [1] ∧
        ∃ t, inlineVersionText sampleStrayPlugin = some t ∧
          msg = ruleAMsg (artifact_coords sampleStrayPlugin).1
            (artifact_coords sampleStrayPlugin).2 (pyStrip t)))) :=
  ⟨rfl, rfl, c1_ruleA_raises_iff sampleRoot [1] sampleStrayPlugin rfl rfl⟩

/-- C2 — Rule B plugin-local exemption: a dependency element inside any
plugin element never yields a Rule-B violation (even with a version and
outside dependency management); and a Rule-B violation is emitted for a
scanned dependency exactly when its identity is in neither the
`dependencyManagement` id set nor the plugin-scoped id set and it
carries a truthy `version` sub-element. -/
theorem c2_ruleB_plugin_exempt (root : Element) (path : List Nat) (p : Element)
    (hget : getPath path root = some p) (htag : p.tag = "dependency") :
    (insideSection root "plugin" path →
      ruleBViolation (dm_dependency_ids root) (plugin_dependency_ids root) (path, p) = none) ∧
    (∀ msg,
      ruleBViolation (dm_dependency_ids root) (plugin_dependency_ids root) (path, p) = some msg ↔
        (path ∉ dm_dependency_ids root ∧ path ∉ plugin_dependency_ids root ∧
         ∃ t, inlineVersionText p = some t ∧
           msg = ruleBMsg (artifact_coords p).1 (artifact_coords p).2 (pyStrip t))) := by
  have hmem_iff : path ∈ plugin_dependency_ids root ↔ insideSection root "plugin" path :=
    mem_sectionIds_iff "plugin" "dependency" root path p hget htag
  constructor
  · intro hin
    have hpd : path ∈ plugin_dependency_ids root := hmem_iff.2 hin
    simp [ruleBViolation, hpd]
  · intro msg
    by_cases hdm : path ∈ dm_dependency_ids root
    · simp [ruleBViolation, hdm]
    · by_cases hpd : path ∈ plugin_dependency_ids root
      · simp [ruleBViolation, hdm, hpd]
      · simp only [ruleBViolation, hdm, hpd, or_self, if_neg, not_false_eq_true, true_and]
        cases hv : inlineVersionText p with
        | none => simp
        | some t =>
          simp only [Option.some.injEq]
          constructor
          · rintro rfl
            exact ⟨t, rfl, rfl⟩
          · rintro ⟨t2, ht2, rfl⟩
            cases ht2
            rfl

/-- Witness for C2 at a concrete manifest: the versioned plugin-local
dependency of `sampleRootB` sits at path `[0, 0, 0, 0]`. -/
theorem c2_witness :
    getPath [0, 0, 0, 0] sampleRootB = some samplePluginDep ∧
    Element.tag samplePluginDep = "dependency" ∧
    ((insideSection sampleRootB "plugin" [0, 0, 0, 0] →
       ruleBViolation (dm_dependency_ids sampleRootB) (plugin_dependency_ids sampleRootB)
         ([0, 0, 0, 0], samplePluginDep) = none) ∧
     (∀ msg,
       ruleBViolation (dm_dependency_ids sampleRootB) (plugin_dependency_ids sampleRootB)
           ([0, 0, 0, 0], samplePluginDep) = some msg ↔
         ([0, 0, 0, 0] ∉ dm_dependency_ids sampleRootB ∧
          [0, 0, 0, 0] ∉ plugin_dependency_ids sampleRootB ∧
          ∃ t, inlineVersionText samplePluginDep = some t ∧
            msg = ruleBMsg (artifact_coords samplePluginDep).1
              (artifact_coords samplePluginDep).2 (pyStrip t)))) :=
  ⟨rfl, rfl, c2_ruleB_plugin_exempt sampleRootB [0, 0, 0, 0] samplePluginDep rfl rfl⟩

/-! ### Claim C8: determinism -/

/-- C8 — determinism: the whole check is a pure function of the parsed
manifest and the raw configuration text; two runs on identical inputs
produce identical violation sequences, element for element. -/
theorem c8_deterministic (root : Element) (text : String) (r1 r2 : List String)
    (h1 : r1 = check root text) (h2 : r2 = check root text) :
    r1 = r2 ∧ ∀ i : Nat, r1[i]? = r2[i]? := by
  subst h1; subst h2
  exact ⟨rfl, fun i => rfl⟩

/-- Witness for C8 on a concrete run. -/
theorem c8_witness :
    ([missingMsg] = check emptyRoot "") ∧
    (([missingMsg] : List String) = [missingMsg] ∧
      ∀ i : Nat, ([missingMsg] : List String)[i]? = ([missingMsg] : List String)[i]?) :=
  ⟨rfl, c8_deterministic emptyRoot "" [missingMsg] [missingMsg] rfl rfl⟩

/-! ### Claims C3 and C9: the coverage matcher -/

/-- C3 — coverage matcher definition: `covers_group_id p g` holds exactly
when the glob matcher accepts the concatenation of the identifier, the
separator `":"` and the dummy suffix token `"DUMMY"` against the
pattern; being a Lean function into `Bool` it is total and never
fails. -/
theorem c3_covers_def (p g : String) :
    covers_group_id p g = true ↔ fnmatchB (g ++ ":" ++ "DUMMY") p = true := by
  have h0 : (":" : String).data ++ ("DUMMY" : String).data = (":DUMMY" : String).data := rfl
  have hdata : (g ++ ":" ++ "DUMMY").data = (g ++ ":DUMMY").data := by
    simp [String.data_append, List.append_assoc, h0]
  rw [covers_group_id, fnmatchB, fnmatchB, hdata]

/-- A pattern without glob metacharacters matches only the literally
identical string. -/
theorem fnMatchAux_literal (fuel : Nat) (pat s : List Char)
    (hp : pat.all (fun c => !(c = '*' || c = '?' || c = '[')) = true)
    (h : fnMatchAux fuel pat s = true) : s = pat := by
  induction fuel generalizing pat s with
  | zero => simp [fnMatchAux] at h
  | succ fuel ih =>
    match pat, hp with
    | [], _ =>
      simp only [fnMatchAux] at h
      exact List.isEmpty_iff.1 h
    | c :: ps, hp =>
      simp only [List.all_cons, Bool.and_eq_true] at hp
      have hc : ¬(c = '*' || c = '?' || c = '[') = true := by
        intro hcon
        rw [hcon] at hp
        exact Bool.noConfusion hp.1
      have hc1 : c ≠ '*' := fun hcc => hc (by simp [hcc])
      have hc2 : c ≠ '?' := fun hcc => hc (by simp [hcc])
      have hc3 : c ≠ '[' := fun hcc => hc (by simp [hcc])
      simp only [fnMatchAux] at h
      rw [if_neg (by simpa using hc1), if_neg (by simpa using hc2),
        if_neg (by simpa using hc3)] at h
      match s with
      | [] => exact Bool.noConfusion h
      | ch :: ss =>
        simp only [Bool.and_eq_true, decide_eq_true_eq] at h
        have hrec := ih ps ss hp.2 h.2
        rw [h.1, hrec]

/-- C9 — bare patterns never self-cover: a pattern that is literally an
identifier (no glob metacharacters, no separator) does not cover that
identifier, because the glob is matched against the identifier with
`":DUMMY"` appended. -/
theorem c9_bare_no_self_cover (g : String)
    (h1 : g.data.all (fun c => !(c = '*' || c = '?' || c = '[')) = true)
    (h2 : g.data.contains ':' = false) :
    covers_group_id g g = false := by
  cases hcov : covers_group_id g g with
  | false => rfl
  | true =>
    exfalso
    have hmatch : fnMatchAux (g.data.length + (g ++ ":DUMMY").data.length + 1)
        g.data (g ++ ":DUMMY").data = true := hcov
    have hdata := fnMatchAux_literal _ _ _ h1 hmatch
    have hlen := congrArg List.length hdata
    rw [String.data_append, List.length_append] at hlen
    have : (":DUMMY" : String).data.length = 6 := by decide
    omega

/-- Witness for C9 at a concrete identifier. -/
theorem c9_witness :
    ("com.example".data.all (fun c => !(c = '*' || c = '?' || c = '[')) = true) ∧
    ("com.example".data.contains ':' = false) ∧
    covers_group_id "com.example" "com.example" = false :=
  ⟨by decide, by decide, c9_bare_no_self_cover "com.example" (by decide) (by decide)⟩

/-! ### Claim C5: the coordinate extractor -/

/-- C5 (amended) — coordinate extractor characterization: for each of the
two fixed sub-element names, when the first matching child is present
and its text is truthy (non-`None`, not the empty string), the stripped
text is returned; the fallback `"unknown"` is used exactly when the
child is absent, its text is `None`, or its text is the empty string.
(The script tests truthiness of the raw text, so whitespace-only text is
stripped to `""` rather than replaced by `"unknown"`.) -/
theorem c5_coords_characterization :
    (∀ e g t, e.findChild "groupId" = some g → g.text = some t → t ≠ "" →
       (artifact_coords e).1 = pyStrip t) ∧
    (∀ e, (∀ g, e.findChild "groupId" = some g → (g.text = none ∨ g.text = some "")) →
       (artifact_coords e).1 = "unknown") ∧
    (∀ e a t, e.findChild "artifactId" = some a → a.text = some t → t ≠ "" →
       (artifact_coords e).2 = pyStrip t) ∧
    (∀ e, (∀ a, e.findChild "artifactId" = some a → (a.text = none ∨ a.text = some "")) →
       (artifact_coords e).2 = "unknown") := by
  refine ⟨fun e g t hf ht hne => ?_, fun e h => ?_, fun e a t hf ht hne => ?_, fun e h => ?_⟩
  · simp [artifact_coords, coordOf, hf, ht, hne]
  · cases hf : e.findChild "groupId" with
    | none => simp [artifact_coords, coordOf, hf]
    | some g =>
      rcases h g hf with ht | ht <;> simp [artifact_coords, coordOf, hf, ht]
  · simp [artifact_coords, coordOf, hf, ht, hne]
  · cases hf : e.findChild "artifactId" with
    | none => simp [artifact_coords, coordOf, hf]
    | some a =>
      rcases h a hf with ht | ht <;> simp [artifact_coords, coordOf, hf, ht]

/-- Counterexample to C5 as stated: an element whose groupId text is
whitespace-only yields the empty string, not the `"unknown"` fallback
the claim demands for whitespace-only text. -/
theorem c5_counterexample :
    (Element.mk "groupId" (some "   ") []).text = some "   " ∧
    pyStrip "   " = "" ∧
    (artifact_coords wsGidElem).1 = "" ∧
    (artifact_coords wsGidElem).1 ≠ "unknown" := by
  refine ⟨rfl, by decide, by decide, by decide⟩

/-- Witness for (amended) C5 on concrete elements: a present padded
groupId is stripped, an absent artifactId falls back to `"unknown"`. -/
theorem c5_witness :
    Element.findChild okGidElem "groupId" = some (Element.mk "groupId" (some " org.x ") []) ∧
    (" org.x " : String) ≠ "" ∧
    (artifact_coords okGidElem).1 = pyStrip " org.x " ∧
    (artifact_coords okGidElem).2 = "unknown" :=
  ⟨rfl, by decide,
   c5_coords_characterization.1 okGidElem (Element.mk "groupId" (some " org.x ") []) " org.x "
     rfl rfl (by decide),
   c5_coords_characterization.2.2.2 okGidElem (fun a h => nomatch h)⟩

/-! ### Claim C10: groupId-less managed plugins are invisible to coverage -/

/-- C10 — a managed plugin whose groupId child is absent or has falsy
text contributes nothing to the collected coverage identifiers (no
`"unknown"` fallback is applied here), so it can neither trigger a
Rule-C violation nor keep any pattern from being reported stale by
Rule D: the collected identifier list is exactly what it would be with
that plugin dropped from the scan. -/
theorem c10_no_gid_invisible (root : Element) (path : List Nat) (p : Element)
    (hget : getPath path root = some p) (htag : p.tag = "plugin")
    (hpm : path ∈ pm_plugin_ids root)
    (hgid : ∀ g, p.findChild "groupId" = some g → (g.text = none ∨ g.text = some "")) :
    pmGroupIdOf (pm_plugin_ids root) (path, p) = none ∧
    ∀ l1 l2, iterNodes "plugin" root = l1 ++ (path, p) :: l2 →
      pm_group_ids_list root = (l1 ++ l2).filterMap (pmGroupIdOf (pm_plugin_ids root)) := by
  have hnone : pmGroupIdOf (pm_plugin_ids root) (path, p) = none := by
    cases hf : p.findChild "groupId" with
    | none => simp [pmGroupIdOf, hpm, hf]
    | some g =>
      rcases hgid g hf with ht | ht <;> simp [pmGroupIdOf, hpm, hf, ht]
  refine ⟨hnone, fun l1 l2 hsplit => ?_⟩
  rw [pm_group_ids_list, hsplit, List.filterMap_append, List.filterMap_cons, hnone,
    List.filterMap_append]

/-- Witness for C10: the groupId-less managed plugin of
`sampleRootNoGid` sits at path `[0, 0]`. -/
theorem c10_witness :
    getPath [0, 0] sampleRootNoGid = some sampleNoGidPlugin ∧
    Element.tag sampleNoGidPlugin = "plugin" ∧
    [0, 0] ∈ pm_plugin_ids sampleRootNoGid ∧
    (pmGroupIdOf (pm_plugin_ids sampleRootNoGid) ([0, 0], sampleNoGidPlugin) = none ∧
     ∀ l1 l2, iterNodes "plugin" sampleRootNoGid = l1 ++ ([0, 0], sampleNoGidPlugin) :: l2 →
       pm_group_ids_list sampleRootNoGid =
         (l1 ++ l2).filterMap (pmGroupIdOf (pm_plugin_ids sampleRootNoGid))) :=
  ⟨rfl, rfl, by decide,
   c10_no_gid_invisible sampleRootNoGid [0, 0] sampleNoGidPlugin rfl rfl (by decide)
     (fun g h => nomatch h)⟩

/-! ### Claim C7: Rule C / Rule D exact counts -/

theorem string_data_eq (a b : String) (h : a.data = b.data) : a = b := by
  cases a; cases b; exact congrArg String.mk h

theorem affix_inj (pre suf : String) : Function.Injective fun x => pre ++ (x ++ suf) := by
  intro x y h
  have hd := congrArg String.data h
  simp only [String.data_append] at hd
  exact string_data_eq x y (List.append_cancel_right (List.append_cancel_left hd))

theorem filterMap_if_eq_map_filter {α β : Type} (l : List α) (p : α → Bool) (f : α → β) :
    (l.filterMap fun a => if p a then none else some (f a)) =
      (l.filter fun a => !p a).map f := by
  induction l with
  | nil => rfl
  | cons a l ih => by_cases h : p a <;> simp [h, ih]

theorem count_map_injective_str (f : String → String) (hf : Function.Injective f)
    (l : List String) (x : String) : (l.map f).count (f x) = l.count x := by
  induction l with
  | nil => rfl
  | cons a l ih =>
    by_cases h : a = x
    · subst h
      rw [List.map_cons, List.count_cons_self, List.count_cons_self, ih]
    · have hfx : f x ≠ f a := fun hc => h (hf hc).symm
      rw [List.map_cons, List.count_cons_of_ne hfx, List.count_cons_of_ne (Ne.symm h), ih]

theorem insertSorted_perm (a : String) (l : List String) :
    (insertSorted a l).Perm (a :: l) := by
  induction l with
  | nil => exact List.Perm.refl _
  | cons b l ih =>
    rw [insertSorted]
    by_cases h : sle a b
    · rw [if_pos h]
    · rw [if_neg h]
      exact (ih.cons b).trans (List.Perm.swap a b l)

theorem sortStr_perm (l : List String) : (sortStr l).Perm l := by
  induction l with
  | nil => exact List.Perm.refl _
  | cons a l ih => exact (insertSorted_perm a (sortStr l)).trans (ih.cons a)

/-- C7 — Rule C / Rule D exact counts: with a non-empty pattern list,
a managed groupId covered by no pattern contributes exactly one Rule-C
message; each occurrence of a pattern covering no managed groupId
contributes exactly one Rule-D message (so a pattern listed once yields
exactly one violation); and a pattern covering at least one managed
groupId contributes zero Rule-D messages. -/
theorem c7_rule_cd_counts (root : Element) (patterns : List String) (gid pat : String)
    (hne : patterns ≠ [])
    (hg : gid ∈ managedGroupIds root) (hp : pat ∈ patterns) :
    ((patterns.any fun p => covers_group_id p gid) = false →
      (checkRuleC (managedGroupIds root) patterns).count (ruleCMsg gid) = 1) ∧
    (((managedGroupIds root).any fun g => covers_group_id pat g) = false →
      (checkRuleD (managedGroupIds root) patterns).count (ruleDMsg pat) = patterns.count pat) ∧
    (((managedGroupIds root).any fun g => covers_group_id pat g) = true →
      (checkRuleD (managedGroupIds root) patterns).count (ruleDMsg pat) = 0) := by
  have hCinj : Function.Injective ruleCMsg :=
    affix_inj "dependabot.yml: plugin groupId '"
      "' from <pluginManagement> is not covered by any pattern in the 'maven-plugins' group"
  have hDinj : Function.Injective ruleDMsg :=
    affix_inj "dependabot.yml: pattern '"
      "' in the 'maven-plugins' group does not match any plugin groupId in <pluginManagement>"
  refine ⟨fun hcov => ?_, fun hcov => ?_, fun hcov => ?_⟩
  · rw [checkRuleC, filterMap_if_eq_map_filter, count_map_injective_str _ hCinj,
      List.count_filter (by rw [hcov]; rfl),
      (sortStr_perm (managedGroupIds root)).count_eq]
    exact count_eq_one_of_nodup_mem (by rw [managedGroupIds]; exact List.nodup_dedup _) hg
  · rw [checkRuleD, filterMap_if_eq_map_filter, count_map_injective_str _ hDinj,
      List.count_filter (by rw [hcov]; rfl)]
  · rw [checkRuleD, filterMap_if_eq_map_filter, count_map_injective_str _ hDinj]
    refine List.count_eq_zero.2 fun hmem => ?_
    have := (List.mem_filter.1 hmem).2
    rw [hcov] at this
    exact Bool.noConfusion this

/-- Witness for C7 on a concrete manifest and pattern list (uncovered
managed groupId `org.foo`, stale pattern `other.group:*`). -/
theorem c7_witness :
    (["other.group:*"] : List String) ≠ [] ∧
    "org.foo" ∈ managedGroupIds sampleRoot ∧
    "other.group:*" ∈ (["other.group:*"] : List String) ∧
    (((["other.group:*"] : List String).any fun p => covers_group_id p "org.foo") = false →
      (checkRuleC (managedGroupIds sampleRoot) ["other.group:*"]).count (ruleCMsg "org.foo") = 1) ∧
    (((managedGroupIds sampleRoot).any fun g => covers_group_id "other.group:*" g) = false →
      (checkRuleD (managedGroupIds sampleRoot) ["other.group:*"]).count (ruleDMsg "other.group:*") =
        (["other.group:*"] : List String).count "other.group:*") ∧
    (((managedGroupIds sampleRoot).any fun g => covers_group_id "other.group:*" g) = true →
      (checkRuleD (managedGroupIds sampleRoot) ["other.group:*"]).count (ruleDMsg "other.group:*") = 0) :=
  ⟨by decide, by decide, by decide,
   c7_rule_cd_counts sampleRoot ["other.group:*"] "org.foo" "other.group:*"
     (by decide) (by decide) (by decide)⟩

/-! ### Claim C4: missing-configuration-block handling -/

theorem ruleAViolation_shape (pmIds : List (List Nat)) (pe : List Nat × Element) (msg : String)
    (h : ruleAViolation pmIds pe = some msg) : ∃ s, msg = "pom.xml: " ++ s := by
  rw [ruleAViolation] at h
  by_cases hin : pe.1 ∈ pmIds
  · rw [if_pos hin] at h
    exact Option.noConfusion h
  · rw [if_neg hin] at h
    cases hv : inlineVersionText pe.2 with
    | none => rw [hv] at h; exact Option.noConfusion h
    | some t =>
      rw [hv] at h
      injection h with hmsg
      exact ⟨_, by rw [← hmsg, ruleAMsg]⟩

theorem ruleBViolation_shape (dmIds pdIds : List (List Nat)) (pe : List Nat × Element)
    (msg : String) (h : ruleBViolation dmIds pdIds pe = some msg) :
    ∃ s, msg = "pom.xml: " ++ s := by
  rw [ruleBViolation] at h
  by_cases hin : pe.1 ∈ dmIds ∨ pe.1 ∈ pdIds
  · rw [if_pos hin] at h
    exact Option.noConfusion h
  · rw [if_neg hin] at h
    cases hv : inlineVersionText pe.2 with
    | none => rw [hv] at h; exact Option.noConfusion h
    | some t =>
      rw [hv] at h
      injection h with hmsg
      exact ⟨_, by rw [← hmsg, ruleBMsg]⟩

theorem pom_prefix_ne_missing (s : String) : "pom.xml: " ++ s ≠ missingMsg := by
  intro h
  have hd := congrArg String.data h
  rw [String.data_append] at hd
  have h1 : ("pom.xml: " : String).data = 'p' :: "om.xml: ".data := rfl
  have h2 : missingMsg.data =
      'd' :: "ependabot.yml: could not find patterns for the 'maven-plugins' group".data := rfl
  rw [h1, h2, List.cons_append] at hd
  have := List.head_eq_of_cons_eq hd
  exact absurd this (by decide)

/-- C4 (amended) — whenever the extractor returns an empty pattern list
(be it because a marker is missing or because the located `patterns:`
block holds zero items — the script cannot tell these apart), the check
emits exactly one missing-configuration-block violation and the Rule C /
Rule D per-item checks contribute nothing. -/
theorem c4_missing_block (root : Element) (text : String)
    (h : extract_maven_plugins_patterns text = []) :
    check root text = checkRuleA root ++ (checkRuleB root ++ [missingMsg]) ∧
    (check root text).count missingMsg = 1 := by
  have hch : check root text = checkRuleA root ++ (checkRuleB root ++ [missingMsg]) := by
    rw [check]
    simp only [h, if_pos]
  refine ⟨hch, ?_⟩
  rw [hch, List.count_append, List.count_append]
  have hA : (checkRuleA root).count missingMsg = 0 :=
    List.count_eq_zero.2 fun hm => by
      obtain ⟨pe, -, hv⟩ := List.mem_filterMap.1 hm
      obtain ⟨s, hs⟩ := ruleAViolation_shape _ _ _ hv
      exact pom_prefix_ne_missing s hs.symm
  have hB : (checkRuleB root).count missingMsg = 0 :=
    List.count_eq_zero.2 fun hm => by
      obtain ⟨pe, -, hv⟩ := List.mem_filterMap.1 hm
      obtain ⟨s, hs⟩ := ruleBViolation_shape _ _ _ _ hv
      exact pom_prefix_ne_missing s hs.symm
  rw [hA, hB]
  rfl

/-- Counterexample to C4 as stated: in `emptyPatternsText` the whole
marker chain is locatable (adding a single item line makes extraction
succeed), yet with zero items the script still emits the missing-block
violation, which the claim says must not happen for a located block. -/
theorem c4_counterexample :
    extract_maven_plugins_patterns emptyPatternsText = [] ∧
    extract_maven_plugins_patterns emptyPatternsTextWithItem = ["org.foo:*"] ∧
    missingMsg ∈ check emptyRoot emptyPatternsText :=
  ⟨by decide, by decide, by decide⟩

/-- Witness for (amended) C4 at a concrete input. -/
theorem c4_witness :
    extract_maven_plugins_patterns emptyPatternsText = [] ∧
    (check emptyRoot emptyPatternsText =
       checkRuleA emptyRoot ++ (checkRuleB emptyRoot ++ [missingMsg]) ∧
     (check emptyRoot emptyPatternsText).count missingMsg = 1) :=
  ⟨by decide, c4_missing_block emptyRoot emptyPatternsText (by decide)⟩

/-! ### Claim C6: comment/blank invariance of block extraction -/

theorem stripChars_eq_nil (cs : List Char) (h : stripChars cs = []) :
    ∀ c ∈ cs, pyIsSpace c = true := by
  rw [stripChars, List.reverse_eq_nil_iff] at h
  have h3 : ∀ c ∈ cs.dropWhile pyIsSpace, pyIsSpace c = true := fun c hc =>
    List.dropWhile_eq_nil_iff.1 h c (List.mem_reverse.2 hc)
  intro c hc
  have hsplit : c ∈ cs.takeWhile pyIsSpace ++ cs.dropWhile pyIsSpace := by
    rw [List.takeWhile_append_dropWhile]
    exact hc
  rcases List.mem_append.1 hsplit with h4 | h4
  · exact List.mem_takeWhile_imp h4
  · exact h3 c h4

/-- A blank line (stripping to the empty string) can never match the raw
ecosystem-marker search. -/
theorem blank_no_marker (x : String) (h : pyStrip x = "") : regexSearchMaven x = false := by
  cases hr : regexSearchMaven x with
  | false => rfl
  | true =>
    exfalso
    rw [regexSearchMaven] at hr
    obtain ⟨cs, hcs, hmark⟩ := List.any_eq_true.1 hr
    rw [mavenMarkerAt, Bool.and_eq_true] at hmark
    obtain ⟨rest, hrest⟩ := List.isPrefixOf_iff_prefix.1 hmark.1
    have hp_mem : 'p' ∈ cs := by
      rw [← hrest]
      exact List.mem_append_left _ (by decide)
    have hsuf : cs <:+ x.data := (List.mem_tails _ _).1 hcs
    have hmem : 'p' ∈ x.data := hsuf.subset hp_mem
    have hsc : stripChars x.data = [] := congrArg String.data h
    have := stripChars_eq_nil x.data hsc 'p' hmem
    exact absurd this (by decide)

theorem findRel_refl (x : String) (o : Option (String × List String)) : FindRel x o o := by
  cases o with
  | none => trivial
  | some lr => exact ⟨rfl, Or.inl rfl⟩

/-- Inserting an ignorable line anywhere does not disturb an inner
marker search: the same line (or no line) is found, and the remainders
stay related by the insertion. -/
theorem find_line_insert (m : String → Bool) (si : Option Nat) (x : String)
    (hx : ignorableLine x = true) (ls1 ls2 : List String) (h : InsOrEq x ls1 ls2) :
    FindRel x (find_line m si ls1) (find_line m si ls2) := by
  rcases h with rfl | ⟨a, b, rfl, rfl⟩
  · exact findRel_refl x _
  · induction a with
    | nil =>
      show FindRel x (find_line m si b) (find_line m si (x :: b))
      rw [find_line]
      simp only [hx, if_true]
      exact findRel_refl x _
    | cons hd tl ih =>
      show FindRel x (find_line m si (hd :: (tl ++ b))) (find_line m si (hd :: (tl ++ x :: b)))
      rw [find_line, find_line]
      cases hig : ignorableLine hd with
      | true => simp only [hig, if_true]; exact ih
      | false =>
        simp only [hig, Bool.false_eq_true, if_false]
        cases hstop : si.any fun v => indentOf hd ≤ v with
        | true => simp only [hstop, if_true]; trivial
        | false =>
          simp only [hstop, Bool.false_eq_true, if_false]
          cases hm : m (pyStrip hd) with
          | true =>
            simp only [hm, if_true]
            exact ⟨rfl, Or.inr ⟨tl, b, rfl, rfl⟩⟩
          | false =>
            simp only [hm, Bool.false_eq_true, if_false]
            exact ih

/-- Inserting a line that does not match the raw ecosystem-marker search
does not disturb the top-level maven scan. -/
theorem findMaven_insert (x : String) (hx : regexSearchMaven x = false)
    (ls1 ls2 : List String) (h : InsOrEq x ls1 ls2) :
    FindRel x (findMaven ls1) (findMaven ls2) := by
  rcases h with rfl | ⟨a, b, rfl, rfl⟩
  · exact findRel_refl x _
  · induction a with
    | nil =>
      show FindRel x (findMaven b) (findMaven (x :: b))
      rw [findMaven]
      simp only [hx, Bool.false_eq_true, if_false]
      exact findRel_refl x _
    | cons hd tl ih =>
      show FindRel x (findMaven (hd :: (tl ++ b))) (findMaven (hd :: (tl ++ x :: b)))
      rw [findMaven, findMaven]
      cases hm : regexSearchMaven hd with
      | true =>
        simp only [hm, if_true]
        exact ⟨rfl, Or.inr ⟨tl, b, rfl, rfl⟩⟩
      | false =>
        simp only [hm, Bool.false_eq_true, if_false]
        exact ih

/-- Inserting an ignorable line anywhere does not change the collected
item list. -/
theorem collectItems_insert (patIndent : Nat) (x : String) (hx : ignorableLine x = true)
    (ls1 ls2 : List String) (h : InsOrEq x ls1 ls2) :
    collectItems patIndent ls2 = collectItems patIndent ls1 := by
  rcases h with rfl | ⟨a, b, rfl, rfl⟩
  · rfl
  · induction a with
    | nil =>
      show collectItems patIndent (x :: b) = collectItems patIndent b
      rw [collectItems]
      simp only [hx, if_true]
    | cons hd tl ih =>
      show collectItems patIndent (hd :: (tl ++ x :: b)) =
        collectItems patIndent (hd :: (tl ++ b))
      rw [collectItems, collectItems]
      cases hig : ignorableLine hd with
      | true => simp only [hig, if_true]; exact ih
      | false =>
        simp only [hig, Bool.false_eq_true, if_false]
        by_cases hstop : indentOf hd ≤ patIndent
        · rw [if_pos hstop, if_pos hstop]
        · rw [if_neg hstop, if_neg hstop]
          cases parseItem (pyStrip hd) with
          | none => exact ih
          | some item => rw [ih]

/-- Inserting an ignorable line into the remainder does not change
stage four of the extraction. -/
theorem stage_patterns_insert (x : String) (hig : ignorableLine x = true)
    (pl : String) (r3 r3b : List String) (hrel : InsOrEq x r3 r3b) :
    extract_stage_patterns pl r3b = extract_stage_patterns pl r3 := by
  rw [extract_stage_patterns, extract_stage_patterns]
  have h := find_line_insert (keyMatch "patterns:") (some (indentOf pl)) x hig r3 r3b hrel
  cases e1 : find_line (keyMatch "patterns:") (some (indentOf pl)) r3 with
  | none =>
    cases e2 : find_line (keyMatch "patterns:") (some (indentOf pl)) r3b with
    | none => rfl
    | some lr2 =>
      obtain ⟨ptl2, r4b⟩ := lr2
      rw [e1, e2] at h
      exact (h : False).elim
  | some lr1 =>
    obtain ⟨ptl, r4⟩ := lr1
    cases e2 : find_line (keyMatch "patterns:") (some (indentOf pl)) r3b with
    | none =>
      rw [e1, e2] at h
      exact (h : False).elim
    | some lr2 =>
      obtain ⟨ptl2, r4b⟩ := lr2
      rw [e1, e2] at h
      obtain ⟨hptl, hrel4⟩ := (h : ptl2 = ptl ∧ InsOrEq x r4 r4b)
      rw [hptl]
      exact collectItems_insert (indentOf ptl) x hig r4 r4b hrel4

/-- Inserting an ignorable line into the remainder does not change
stage three of the extraction. -/
theorem stage_mp_insert (x : String) (hig : ignorableLine x = true)
    (gl : String) (r2 r2b : List String) (hrel : InsOrEq x r2 r2b) :
    extract_stage_mp gl r2b = extract_stage_mp gl r2 := by
  rw [extract_stage_mp, extract_stage_mp]
  have h := find_line_insert (keyMatch "maven-plugins:") (some (indentOf gl)) x hig r2 r2b hrel
  cases e1 : find_line (keyMatch "maven-plugins:") (some (indentOf gl)) r2 with
  | none =>
    cases e2 : find_line (keyMatch "maven-plugins:") (some (indentOf gl)) r2b with
    | none => rfl
    | some lr2 =>
      obtain ⟨pl2, r3b⟩ := lr2
      rw [e1, e2] at h
      exact (h : False).elim
  | some lr1 =>
    obtain ⟨pl, r3⟩ := lr1
    cases e2 : find_line (keyMatch "maven-plugins:") (some (indentOf gl)) r2b with
    | none =>
      rw [e1, e2] at h
      exact (h : False).elim
    | some lr2 =>
      obtain ⟨pl2, r3b⟩ := lr2
      rw [e1, e2] at h
      obtain ⟨hpl, hrel3⟩ := (h : pl2 = pl ∧ InsOrEq x r3 r3b)
      rw [hpl]
      exact stage_patterns_insert x hig pl r3 r3b hrel3

/-- Inserting an ignorable line into the remainder does not change
stage two of the extraction. -/
theorem stage_groups_insert (x : String) (hig : ignorableLine x = true)
    (ml : String) (r1 r1b : List String) (hrel : InsOrEq x r1 r1b) :
    extract_stage_groups ml r1b = extract_stage_groups ml r1 := by
  rw [extract_stage_groups, extract_stage_groups]
  have h := find_line_insert (keyMatch "groups:") (some (indentOf ml)) x hig r1 r1b hrel
  cases e1 : find_line (keyMatch "groups:") (some (indentOf ml)) r1 with
  | none =>
    cases e2 : find_line (keyMatch "groups:") (some (indentOf ml)) r1b with
    | none => rfl
    | some lr2 =>
      obtain ⟨gl2, r2b⟩ := lr2
      rw [e1, e2] at h
      exact (h : False).elim
  | some lr1 =>
    obtain ⟨gl, r2⟩ := lr1
    cases e2 : find_line (keyMatch "groups:") (some (indentOf ml)) r1b with
    | none =>
      rw [e1, e2] at h
      exact (h : False).elim
    | some lr2 =>
      obtain ⟨gl2, r2b⟩ := lr2
      rw [e1, e2] at h
      obtain ⟨hgl, hrel2⟩ := (h : gl2 = gl ∧ InsOrEq x r2 r2b)
      rw [hgl]
      exact stage_mp_insert x hig gl r2 r2b hrel2

/-- Inserting a line that is ignorable to the inner scans and invisible
to the raw top-level marker search leaves the extracted pattern list
unchanged. -/
theorem extract_lines_insert (x : String) (hig : ignorableLine x = true)
    (hm : regexSearchMaven x = false) (ls1 ls2 : List String) (h : InsOrEq x ls1 ls2) :
    extract_lines ls2 = extract_lines ls1 := by
  rw [extract_lines, extract_lines]
  have h1 := findMaven_insert x hm ls1 ls2 h
  cases e1 : findMaven ls1 with
  | none =>
    cases e2 : findMaven ls2 with
    | none => rfl
    | some lr2 =>
      obtain ⟨ml2, r1b⟩ := lr2
      rw [e1, e2] at h1
      exact (h1 : False).elim
  | some lr1 =>
    obtain ⟨ml, r1⟩ := lr1
    cases e2 : findMaven ls2 with
    | none =>
      rw [e1, e2] at h1
      exact (h1 : False).elim
    | some lr2 =>
      obtain ⟨ml2, r1b⟩ := lr2
      rw [e1, e2] at h1
      obtain ⟨hml, hrel1⟩ := (h1 : ml2 = ml ∧ InsOrEq x r1 r1b)
      rw [hml]
      exact stage_groups_insert x hig ml r1 r1b hrel1

/-- C6 (amended) — invariance of block extraction under inserted blank
and comment lines, and dedent termination: inserting a blank line
anywhere never changes the extracted pattern list; inserting a comment
line never changes it either, provided the comment does not itself match
the raw top-level ecosystem-marker search (which, unlike every inner
scan, tests raw unstripped lines and so can be captured by a comment);
and a non-blank, non-comment line dedented to at or below the
`patterns:` marker indentation terminates item collection, making
everything after it irrelevant. -/
theorem c6_comment_blank_invariance :
    (∀ (pre post : List String) (x : String),
       (pyStrip x = "" ∨ (startsWithHash (pyStrip x) = true ∧ regexSearchMaven x = false)) →
       extract_lines (pre ++ x :: post) = extract_lines (pre ++ post)) ∧
    (∀ (patIndent : Nat) (pre post : List String) (l : String),
       pyStrip l ≠ "" → startsWithHash (pyStrip l) = false → indentOf l ≤ patIndent →
       collectItems patIndent (pre ++ l :: post) = collectItems patIndent (pre ++ [l])) := by
  constructor
  · intro pre post x hx
    have hig : ignorableLine x = true := by
      rw [ignorableLine]
      rcases hx with h | ⟨h, -⟩ <;> simp [h]
    have hm : regexSearchMaven x = false := by
      rcases hx with h | ⟨-, h⟩
      · exact blank_no_marker x h
      · exact h
    exact extract_lines_insert x hig hm (pre ++ post) (pre ++ x :: post)
      (Or.inr ⟨pre, post, rfl, rfl⟩)
  · intro patIndent pre post l h1 h2 h3
    induction pre with
    | nil =>
      have hig : ignorableLine l = false := by
        rw [ignorableLine]
        simp [h1, h2]
      rw [List.nil_append, List.nil_append, collectItems, collectItems]
      simp [hig, h3]
    | cons hd tl ih =>
      rw [List.cons_append, List.cons_append, collectItems, collectItems]
      cases hig : ignorableLine hd with
      | true => simp only [hig, if_true]; exact ih
      | false =>
        simp only [hig, Bool.false_eq_true, if_false]
        by_cases hstop : indentOf hd ≤ patIndent
        · rw [if_pos hstop, if_pos hstop]
        · rw [if_neg hstop, if_neg hstop]
          cases parseItem (pyStrip hd) with
          | none => exact ih
          | some item => rw [ih]

/-- Counterexample to C6 as stated: inserting the comment line
`# package-ecosystem: maven` at the top of a well-formed configuration
text changes the extracted pattern list from `["org.foo:*"]` to `[]`,
because the top-level ecosystem scan searches raw lines and matches the
comment. -/
theorem c6_counterexample :
    startsWithHash (pyStrip "# package-ecosystem: maven") = true ∧
    splitlines sampleDependabotTextCommented =
      "# package-ecosystem: maven" :: splitlines sampleDependabotText ∧
    extract_maven_plugins_patterns sampleDependabotText = ["org.foo:*"] ∧
    extract_maven_plugins_patterns sampleDependabotTextCommented = [] ∧
    extract_maven_plugins_patterns sampleDependabotTextCommented ≠
      extract_maven_plugins_patterns sampleDependabotText :=
  ⟨by decide, by decide, by decide, by decide, by decide⟩

/-- Witness for (amended) C6: a blank-line insertion and a dedent
termination at concrete inputs. -/
theorem c6_witness :
    (pyStrip "   " = "" ∨
      (startsWithHash (pyStrip "   ") = true ∧ regexSearchMaven "   " = false)) ∧
    extract_lines (["updates:"] ++ "   " :: ["  x: 1"]) =
      extract_lines (["updates:"] ++ ["  x: 1"]) ∧
    (pyStrip "next:" ≠ "" ∧ startsWithHash (pyStrip "next:") = false ∧
      indentOf "next:" ≤ 4) ∧
    collectItems 4 (["      - a"] ++ "next:" :: ["      - b"]) =
      collectItems 4 (["      - a"] ++ ["next:"]) :=
  ⟨Or.inl (by decide),
   c6_comment_blank_invariance.1 ["updates:"] ["  x: 1"] "   " (Or.inl (by decide)),
   ⟨by decide, by decide, by decide⟩,
   c6_comment_blank_invariance.2 4 ["      - a"] ["      - b"] "next:"
     (by decide) (by decide) (by decide)⟩
